import Mathlib

/-!
Shallow embedding of the JewelSnap-AI video keyframe extraction core
(src/services/videoProcessor.ts, the type declarations, and the frame
labeling service), together with proofs of the specified properties.

Modeling conventions:
* JS numbers are modeled as exact rationals; Math.floor of the
  nonnegative progress expression is natural-number division.
* A JS arithmetic result that is NaN (from 0/0) is modeled as none in
  Option Rat.
* The browser decode pipeline (seek to a timestamp, draw, read pixels)
  is deterministic for a fixed video, because the orchestrator awaits
  each seek before the next; it is modeled by oracles: sc gives the
  sharpness score of the analysis-resolution frame at a timestamp and
  cap gives the JPEG data URL of the full-resolution capture there.
-/

/-- Pixel buffer of the browser ImageData: flat RGBA array, channel c of
pixel index i stored at data (4 * i + c). -/
structure ImageDataM where
  width : ℕ
  height : ℕ
  data : ℕ → ℚ

/-- Grayscale conversion loop of calculateLaplacianVariance:
grayscale idx = 0.299 * R + 0.587 * G + 0.114 * B of pixel idx. -/
def grayscale (img : ImageDataM) (idx : ℕ) : ℚ :=
  0.299 * img.data (4 * idx) + 0.587 * img.data (4 * idx + 1) + 0.114 * img.data (4 * idx + 2)

/-- Laplacian value computed in the interior double loop of
calculateLaplacianVariance: with idx = y * width + x, the code computes
val = -4 * g idx + g (idx - 1) + g (idx + 1) + g (idx - width) + g (idx + width). -/
def lapVal (img : ImageDataM) (x y : ℕ) : ℚ :=
  -4 * grayscale img (y * img.width + x)
    + grayscale img (y * img.width + x - 1)
    + grayscale img (y * img.width + x + 1)
    + grayscale img (y * img.width + x - img.width)
    + grayscale img (y * img.width + x + img.width)

/-- The laplacian Float32Array after the double loop: entries written by
the loop (1 <= x < width - 1, 1 <= y < height - 1) hold the Laplacian
value, every other entry keeps its initial 0. -/
def laplacianArr (img : ImageDataM) (idx : ℕ) : ℚ :=
  let x := idx % img.width
  let y := idx / img.width
  if 1 ≤ x ∧ x < img.width - 1 ∧ 1 ≤ y ∧ y < img.height - 1 then lapVal img x y else 0

/-- Value of the count variable after the double loop: one increment per
interior pixel visited. -/
def lapCount (img : ImageDataM) : ℕ :=
  (Finset.Ico 1 (img.height - 1)).card * (Finset.Ico 1 (img.width - 1)).card

/-- Value of the sum variable after the double loop: sum of the interior
Laplacian values, in the same loop range as lapCount. -/
def lapSum (img : ImageDataM) : ℚ :=
  ∑ y ∈ Finset.Ico 1 (img.height - 1), ∑ x ∈ Finset.Ico 1 (img.width - 1), lapVal img x y

/-- calculateLaplacianVariance from videoProcessor.ts. The code computes
mean = sum / count, then sums (laplacian i - mean) ^ 2 over every index
of the laplacian array whose entry is nonzero, and returns that sum
divided by count. When count = 0 (width or height at most 2) the JS code
evaluates 0 / 0 for the final quotient (and for mean, which is then
unused since no array entry is nonzero) and returns NaN, modeled as
none; otherwise the result is the finite rational value. -/
def calculateLaplacianVariance (img : ImageDataM) : Option ℚ :=
  let count := lapCount img
  if count = 0 then none
  else
    let mean := lapSum img / count
    some ((∑ i ∈ Finset.range (img.width * img.height),
      if laplacianArr img i ≠ 0 then (laplacianArr img i - mean) ^ 2 else 0) / count)

/-- Interior pixel coordinates as (y, x) pairs, per spec section 4.3:
every pixel excluding the one-pixel border on all four sides. -/
def specInterior (img : ImageDataM) : Finset (ℕ × ℕ) :=
  Finset.Ico 1 (img.height - 1) ×ˢ Finset.Ico 1 (img.width - 1)

/-- Modelled from the spec, section 4.3 step 1: luminance of pixel (x, y)
via 0.299 R + 0.587 G + 0.114 B, alpha discarded. -/
def specLuminance (img : ImageDataM) (x y : ℕ) : ℚ :=
  0.299 * img.data (4 * (y * img.width + x))
    + 0.587 * img.data (4 * (y * img.width + x) + 1)
    + 0.114 * img.data (4 * (y * img.width + x) + 2)

/-- Modelled from the spec, section 4.3 step 2: discrete Laplacian
L x y = -4 I(x,y) + I(x-1,y) + I(x+1,y) + I(x,y-1) + I(x,y+1). -/
def specLaplacian (img : ImageDataM) (x y : ℕ) : ℚ :=
  -4 * specLuminance img x y + specLuminance img (x - 1) y + specLuminance img (x + 1) y
    + specLuminance img x (y - 1) + specLuminance img x (y + 1)

/-- Modelled from the spec, section 4.3 steps 3 and 4: mean of all
interior Laplacian values divided by the interior pixel count, then
variance = sum of (L - mean) ^ 2 over only the interior pixels with
nonzero Laplacian, again divided by the full interior pixel count. -/
def specSharpnessScore (img : ImageDataM) : ℚ :=
  let n : ℚ := (specInterior img).card
  let mean := (∑ p ∈ specInterior img, specLaplacian img p.2 p.1) / n
  (∑ p ∈ specInterior img,
    if specLaplacian img p.2 p.1 ≠ 0 then (specLaplacian img p.2 p.1 - mean) ^ 2 else 0) / n

/-- Sample record pushed during phase 1 of a segment: the timestamp and
its sharpness score. -/
structure Sample where
  time : ℚ
  score : ℚ
deriving DecidableEq, Repr

/-- Keyframe record from the type declarations (the unused processedUrl
field is omitted); label and aiDescription are the optional fields, none
until the labeling service assigns them. -/
structure Keyframe where
  id : String
  dataUrl : String
  timestamp : ℚ
  score : ℚ
  label : Option String
  aiDescription : Option String
  partId : ℕ
  rankId : ℕ
deriving DecidableEq, Repr

/-- segmentDuration = duration / segments with segments fixed at 5. -/
def segmentDuration (duration : ℚ) : ℚ := duration / 5

/-- Timestamp of sample i of segment s:
time = s * segmentDuration + i * (segmentDuration / samplesPerSegment),
with samplesPerSegment fixed at 24. -/
def sampleTime (duration : ℚ) (s i : ℕ) : ℚ :=
  s * segmentDuration duration + i * (segmentDuration duration / 24)

/-- Phase 1 of segment s: the segmentScores list of 24 scored samples in
loop order. sc is the deterministic decode-and-score oracle. -/
def segmentScores (sc : ℚ → ℚ) (duration : ℚ) (s : ℕ) : List Sample :=
  (List.range 24).map fun i =>
    { time := sampleTime duration s i, score := sc (sampleTime duration s i) }

/-- Comparator of segmentScores.sort((a, b) => b.score - a.score): the JS
sort is stable (ES2019) and orders by score descending, so it is modeled
as a stable merge sort with the boolean order b.score <= a.score. -/
def scoreDescLe (a b : Sample) : Bool := decide (b.score ≤ a.score)

/-- top3Times: sort the segment samples by score descending (stable) and
slice(0, 3). -/
def top3Times (l : List Sample) : List Sample := (l.mergeSort scoreDescLe).take 3

/-- Phase 2 of segment s: the keyframes pushed for segment s, where the
j-th entry of top3Times yields partId s + 1 and rankId j + 1. cap is the
capture oracle (high resolution canvas toDataURL at the timestamp). -/
def segmentKeyframes (sc : ℚ → ℚ) (cap : ℚ → String) (duration : ℚ) (s : ℕ) : List Keyframe :=
  (top3Times (segmentScores sc duration s)).enum.map fun p =>
    { id := "p" ++ toString (s + 1) ++ "_r" ++ toString (p.1 + 1)
      dataUrl := cap p.2.time
      timestamp := p.2.time
      score := p.2.score
      label := none
      aiDescription := none
      partId := s + 1
      rankId := p.1 + 1 }

/-- finalResults at the end of the segment loop: the keyframes of all
five segments concatenated in segment order. -/
def processVideoFrames (sc : ℚ → ℚ) (cap : ℚ → String) (duration : ℚ) : List Keyframe :=
  (List.range 5).flatMap (segmentKeyframes sc cap duration)

/-- Phase 1 progress reports in emission order: at the top of each sample
iteration the code calls onProgress (Math.floor ((currentSample / totalSamples) * 80))
with currentSample = s * 24 + i (0-based, before the sample is taken) and
totalSamples = 120. -/
def sampleProgressReports : List ℕ :=
  (List.range 5).flatMap fun s => (List.range 24).map fun i => (s * 24 + i) * 80 / 120

/-- Full progress trace of a successful run: the 120 phase 1 reports
followed by the single onProgress 100 issued just before resolve. -/
def progressEvents : List ℕ := sampleProgressReports ++ [100]

/-- Environment of one processVideo call: which of the two video element
callbacks fires, whether both getContext calls return a context, the
reported duration, and the decode oracles. -/
structure RunEnv where
  metadataLoads : Bool
  contextsAvailable : Bool
  duration : ℚ
  sc : ℚ → ℚ
  cap : ℚ → String

/-- Observable trace of one processVideo call: the settled promise value,
whether URL.revokeObjectURL was called on the created object URL, and
the sequence of onProgress calls. -/
structure RunTrace where
  result : Except String (List Keyframe)
  urlRevoked : Bool
  progress : List ℕ

/-- Control flow of processVideo: onerror revokes the object URL and
rejects; onloadedmetadata first checks the two canvas contexts and, when
either is missing, rejects without revoking the URL; otherwise the run
samples every segment, reports progress, revokes the URL and resolves. -/
def processVideoRun (env : RunEnv) : RunTrace :=
  if env.metadataLoads then
    if env.contextsAvailable then
      { result := Except.ok (processVideoFrames env.sc env.cap env.duration)
        urlRevoked := true
        progress := progressEvents }
    else
      { result := Except.error "Canvas context unavailable"
        urlRevoked := false
        progress := [] }
  else
    { result := Except.error "Video processing error"
      urlRevoked := true
      progress := [] }

/-- Wrap an integer to signed 32 bits, the effect of hash |= 0 and of the
left shift on a JS number. -/
def toInt32 (n : ℤ) : ℤ := (n + 2 ^ 31) % 2 ^ 32 - 2 ^ 31

/-- One loop step of generateVideoId: hash = (hash << 5) - hash + charCode
followed by hash |= 0. The shift coerces its operand to int32 and wraps;
the subtraction and addition are exact in a JS double and the result is
wrapped by the |= 0. -/
def hashStep (h : ℤ) (c : ℕ) : ℤ := toInt32 (toInt32 (h * 32) - h + c)

/-- The string hash loop of generateVideoId over UTF-16 code units,
starting from 0. -/
def strHash (s : List ℕ) : ℤ := s.foldl hashStep 0

/-- Lowercase hexadecimal digit characters, 0-9 then a-f. -/
def hexDigitChar (d : ℕ) : Char := if d < 10 then Char.ofNat (48 + d) else Char.ofNat (87 + d)

/-- Lowercase hexadecimal digits of n, most significant first; fuel-based
rendering of Number.prototype.toString with radix 16 for a nonnegative
integer (empty for n = 0, handled by the caller). -/
def toHexAux : ℕ → ℕ → List Char
  | 0, _ => []
  | fuel + 1, n => if n = 0 then [] else toHexAux fuel (n / 16) ++ [hexDigitChar (n % 16)]

/-- Lowercase hexadecimal rendering of a nonnegative integer; 0 renders
as the single digit 0. -/
def toHexLower (n : ℕ) : List Char := if n = 0 then ['0'] else toHexAux (n + 1) n

/-- Decimal digit code units of n, most significant first (empty for
n = 0, handled by the caller). -/
def toDecAux : ℕ → ℕ → List ℕ
  | 0, _ => []
  | fuel + 1, n => if n = 0 then [] else toDecAux fuel (n / 10) ++ [48 + n % 10]

/-- UTF-16 code units of the JS decimal string coercion of a nonnegative
number, as used by name + size + lastModified. -/
def decimalCodes (n : ℕ) : List ℕ := if n = 0 then [48] else toDecAux (n + 1) n

/-- generateVideoId from videoProcessor.ts: hash the concatenation of the
file name, decimal size and decimal lastModified, take the absolute
value, render as lowercase hexadecimal, substring(0, 4), then uppercase.
The name is given as its list of UTF-16 code units. -/
def generateVideoId (name : List ℕ) (size lastModified : ℕ) : List Char :=
  let str := name ++ decimalCodes size ++ decimalCodes lastModified
  ((toHexLower (strHash str).natAbs).take 4).map Char.toUpper

/-- The sixteen uppercase hexadecimal digit characters. -/
def upperHexDigits : List Char :=
  ['0', '1', '2', '3', '4', '5', '6', '7', '8', '9', 'A', 'B', 'C', 'D', 'E', 'F']

/-- Outcome of one generateContent call as observed by analyzeFrames:
failure covers a thrown request error or a JSON parse error; success
carries the parsed label and description fields, none when the field is
missing from the parsed object. -/
inductive AiOutcome where
  | failure
  | success (label : Option String) (description : Option String)

/-- JS logical-or defaulting v || d: a missing field and the empty string
are both falsy. -/
def jsOrDefault (v : Option String) (d : String) : String :=
  match v with
  | none => d
  | some s => if s = "" then d else s

/-- Per-frame body of analyzeFrames. On success the frame is spread with
label := result.label || Frame index+1 and
aiDescription := result.description || Jewelry showcase; on failure the
catch branch returns the frame spread with only
label := Frame index+1, keeping every other field. -/
def analyzeFrame (outcome : AiOutcome) (index : ℕ) (frame : Keyframe) : Keyframe :=
  match outcome with
  | AiOutcome.success l d =>
      { frame with
        label := some (jsOrDefault l ("Frame " ++ toString (index + 1)))
        aiDescription := some (jsOrDefault d "Jewelry showcase") }
  | AiOutcome.failure => { frame with label := some ("Frame " ++ toString (index + 1)) }

/-- analyzeFrames from the labeling service: Promise.all preserves input
order; svc gives the outcome of the generateContent call for each frame
index. -/
def analyzeFrames (svc : ℕ → AiOutcome) (frames : List Keyframe) : List Keyframe :=
  frames.enum.map fun p => analyzeFrame (svc p.1) p.1 p.2

/-! ### Helper lemmas -/

theorem segmentScores_length (sc : ℚ → ℚ) (duration : ℚ) (s : ℕ) :
    (segmentScores sc duration s).length = 24 := by
  simp [segmentScores]

theorem top3Times_length (l : List Sample) (h : 3 ≤ l.length) : (top3Times l).length = 3 := by
  rw [top3Times, List.length_take, List.length_mergeSort]
  omega

theorem mem_top3Times (l : List Sample) (x : Sample) (hx : x ∈ top3Times l) : x ∈ l :=
  List.mem_mergeSort.mp (List.Sublist.mem hx (List.take_sublist _ _))

theorem segmentKeyframes_pairs (sc : ℚ → ℚ) (cap : ℚ → String) (duration : ℚ) (s : ℕ) :
    (segmentKeyframes sc cap duration s).map (fun k => (k.partId, k.rankId)) =
      [(s + 1, 1), (s + 1, 2), (s + 1, 3)] := by
  have h3 : (top3Times (segmentScores sc duration s)).length = 3 :=
    top3Times_length _ (by rw [segmentScores_length]; norm_num)
  obtain ⟨a, b, c, habc⟩ := List.length_eq_three.mp h3
  rw [segmentKeyframes, habc]
  rfl

theorem processVideoFrames_pairs (sc : ℚ → ℚ) (cap : ℚ → String) (duration : ℚ) :
    (processVideoFrames sc cap duration).map (fun k => (k.partId, k.rankId)) =
      [(1, 1), (1, 2), (1, 3), (2, 1), (2, 2), (2, 3), (3, 1), (3, 2), (3, 3),
        (4, 1), (4, 2), (4, 3), (5, 1), (5, 2), (5, 3)] := by
  rw [processVideoFrames, List.map_flatMap]
  rw [show List.range 5 = [0, 1, 2, 3, 4] from rfl]
  simp only [List.flatMap_cons, List.flatMap_nil, segmentKeyframes_pairs]
  rfl

theorem processVideoFrames_length (sc : ℚ → ℚ) (cap : ℚ → String) (duration : ℚ) :
    (processVideoFrames sc cap duration).length = 15 := by
  have h := congrArg List.length (processVideoFrames_pairs sc cap duration)
  rw [List.length_map] at h
  simpa using h

theorem mem_segmentKeyframes_sample (sc : ℚ → ℚ) (cap : ℚ → String) (duration : ℚ) (s : ℕ)
    (kf : Keyframe) (hkf : kf ∈ segmentKeyframes sc cap duration s) :
    ∃ sm ∈ segmentScores sc duration s, kf.timestamp = sm.time ∧ kf.score = sm.score := by
  rw [segmentKeyframes, List.mem_map] at hkf
  obtain ⟨p, hp, rfl⟩ := hkf
  have hsnd : p.2 ∈ top3Times (segmentScores sc duration s) := by
    have := List.mem_enum_iff_getElem?.mp hp
    exact List.getElem?_mem this
  exact ⟨p.2, mem_top3Times _ _ hsnd, rfl, rfl⟩

theorem sampleTime_zero (s i : ℕ) : sampleTime 0 s i = 0 := by
  simp [sampleTime, segmentDuration]

theorem processVideoFrames_zero_duration_timestamps (sc : ℚ → ℚ) (cap : ℚ → String)
    (kf : Keyframe) (hkf : kf ∈ processVideoFrames sc cap 0) : kf.timestamp = 0 := by
  rw [processVideoFrames, List.mem_flatMap] at hkf
  obtain ⟨s, _, hkfs⟩ := hkf
  obtain ⟨sm, hsm, ht, _⟩ := mem_segmentKeyframes_sample sc cap 0 s kf hkfs
  rw [segmentScores, List.mem_map] at hsm
  obtain ⟨i, _, rfl⟩ := hsm
  rw [ht, sampleTime_zero]

theorem toHexAux_chars (fuel : ℕ) : ∀ (n : ℕ), ∀ c ∈ toHexAux fuel n, ∃ d, d < 16 ∧ c = hexDigitChar d := by
  induction fuel with
  | zero => intro n c hc; simp [toHexAux] at hc
  | succ fuel ih =>
    intro n c hc
    rw [show toHexAux (fuel + 1) n
        = if n = 0 then [] else toHexAux fuel (n / 16) ++ [hexDigitChar (n % 16)] from rfl] at hc
    by_cases hn : n = 0
    · rw [if_pos hn] at hc
      simp at hc
    · rw [if_neg hn] at hc
      rcases List.mem_append.mp hc with h | h
      · exact ih _ c h
      · exact ⟨n % 16, Nat.mod_lt _ (by norm_num), List.mem_singleton.mp h⟩

theorem toHexLower_chars (n : ℕ) : ∀ c ∈ toHexLower n, ∃ d, d < 16 ∧ c = hexDigitChar d := by
  intro c hc
  rw [toHexLower] at hc
  by_cases hn : n = 0
  · rw [if_pos hn] at hc
    exact ⟨0, by norm_num, by simpa using List.mem_singleton.mp hc⟩
  · rw [if_neg hn] at hc
    exact toHexAux_chars _ _ c hc

theorem toHexLower_ne_nil (n : ℕ) : toHexLower n ≠ [] := by
  rw [toHexLower]
  by_cases hn : n = 0
  · simp [hn]
  · rw [if_neg hn]
    rw [show toHexAux (n + 1) n
        = if n = 0 then [] else toHexAux n (n / 16) ++ [hexDigitChar (n % 16)] from rfl]
    rw [if_neg hn]
    simp

theorem upper_hexDigitChar_mem : ∀ d, d < 16 → Char.toUpper (hexDigitChar d) ∈ upperHexDigits := by
  decide

/-! ### C1 -/

/-- C1: for every run that completes without error, the keyframe list has
exactly 15 elements and its (partId, rankId) projection is exactly the
segment-major, rank-minor enumeration of segments 1..5 with ranks 1..3,
each pair appearing exactly once. processVideoFrames is the resolved
frame list of an error-free run, for any duration and decode oracles. -/
theorem C1_keyframe_grid (sc : ℚ → ℚ) (cap : ℚ → String) (duration : ℚ) :
    (processVideoFrames sc cap duration).length = 15 ∧
      (processVideoFrames sc cap duration).map (fun k => (k.partId, k.rankId)) =
        [(1, 1), (1, 2), (1, 3), (2, 1), (2, 2), (2, 3), (3, 1), (3, 2), (3, 3),
          (4, 1), (4, 2), (4, 3), (5, 1), (5, 2), (5, 3)] :=
  ⟨processVideoFrames_length sc cap duration, processVideoFrames_pairs sc cap duration⟩

/-! ### C4 -/

/-- C4 as stated is false: on a 1 by 1 frame buffer (no interior pixels)
calculateLaplacianVariance evaluates 0 / 0 and returns NaN (modeled as
none), not 0. -/
theorem C4_counterexample :
    calculateLaplacianVariance ⟨1, 1, fun _ => 100⟩ = none ∧
      calculateLaplacianVariance ⟨1, 1, fun _ => 100⟩ ≠ some 0 :=
  ⟨by decide, by decide⟩

/-- C4 amended: for every frame buffer with no interior pixels the
function does not raise an error, but it returns NaN (the JS value of
0 / 0, modeled as none) rather than 0. -/
theorem C4_no_interior_returns_nan (img : ImageDataM) (h : lapCount img = 0) :
    calculateLaplacianVariance img = none := by
  simp [calculateLaplacianVariance, h]

theorem C4_no_interior_returns_nan_witness :
    lapCount ⟨2, 2, fun _ => 0⟩ = 0 ∧ calculateLaplacianVariance ⟨2, 2, fun _ => 0⟩ = none :=
  ⟨by decide, C4_no_interior_returns_nan ⟨2, 2, fun _ => 0⟩ (by decide)⟩

/-! ### C5 -/

/-- C5 as stated is false: the value 80 is never reported at all — the
report emitted with the 120th (last) scoring sample is 79, and the full
progress trace contains no 80 (it jumps from 79 to the final 100). -/
theorem C5_counterexample :
    80 ∉ progressEvents ∧ sampleProgressReports.getD 119 0 = 79 ∧ 120 * 80 / 120 = 80 :=
  ⟨by decide, by decide, by decide⟩

/-- C5 amended: the progress value reported with the i-th scoring sample
(1-indexed) is floor ((i - 1) / 120 * 80), computed from the 0-based
sample counter before the sample completes; it is always below 80, so 80
is never reported. -/
theorem C5_progress_formula (i : ℕ) (h1 : 1 ≤ i) (h2 : i ≤ 120) :
    sampleProgressReports.getD (i - 1) 0 = (i - 1) * 80 / 120 ∧ (i - 1) * 80 / 120 < 80 := by
  have hr : sampleProgressReports = (List.range 120).map fun c => c * 80 / 120 := by decide
  constructor
  · rw [hr, List.getD_eq_getElem?_getD, List.getElem?_map, List.getElem?_range (by omega)]
    rfl
  · have hle : (i - 1) * 80 ≤ 119 * 80 := by omega
    calc (i - 1) * 80 / 120 ≤ 119 * 80 / 120 := Nat.div_le_div_right hle
      _ < 80 := by norm_num

theorem C5_progress_formula_witness :
    1 ≤ 120 ∧ 120 ≤ 120 ∧
      (sampleProgressReports.getD (120 - 1) 0 = (120 - 1) * 80 / 120 ∧
        (120 - 1) * 80 / 120 < 80) :=
  ⟨by decide, by decide, C5_progress_formula 120 (by decide) (by decide)⟩

/-! ### C6 -/

/-- C6: in every successful run the progress values are non-decreasing,
lie in [0, 100] (values are naturals, so only the upper bound is
stated), one report is emitted per scoring sample (120 sample reports
plus the final report, 121 calls), and the terminal value 100 is
reported exactly once, as the last report. -/
theorem C6_progress_contract (env : RunEnv) (h1 : env.metadataLoads = true)
    (h2 : env.contextsAvailable = true) :
    ((processVideoRun env).progress).Pairwise (· ≤ ·) ∧
      (∀ v ∈ (processVideoRun env).progress, v ≤ 100) ∧
      (processVideoRun env).progress.count 100 = 1 ∧
      (processVideoRun env).progress.getLast? = some 100 ∧
      (processVideoRun env).progress.length = 121 := by
  simp only [processVideoRun, h1, h2, if_true]
  exact ⟨by decide, by decide, by decide, by decide, by decide⟩

theorem C6_progress_contract_witness :
    (⟨true, true, 10, fun _ => 0, fun _ => ""⟩ : RunEnv).metadataLoads = true ∧
      ((processVideoRun ⟨true, true, 10, fun _ => 0, fun _ => ""⟩).progress).Pairwise (· ≤ ·) ∧
      (processVideoRun ⟨true, true, 10, fun _ => 0, fun _ => ""⟩).progress.count 100 = 1 :=
  ⟨by decide,
    (C6_progress_contract ⟨true, true, 10, fun _ => 0, fun _ => ""⟩ (by decide) (by decide)).1,
    (C6_progress_contract ⟨true, true, 10, fun _ => 0, fun _ => ""⟩ (by decide) (by decide)).2.2.1⟩

/-! ### C7 -/

/-- C7 as stated is false: a source reporting duration 0 does not fail
and the progress callback is invoked — the run proceeds, reports
progress and resolves with 15 keyframes; no InvalidDuration check exists
in the code. -/
theorem C7_counterexample :
    (processVideoRun ⟨true, true, 0, fun _ => 0, fun _ => ""⟩).progress ≠ [] ∧
      (processVideoRun ⟨true, true, 0, fun _ => 0, fun _ => ""⟩).result.map List.length =
        Except.ok 15 := by
  constructor
  · decide
  · have h : (processVideoRun ⟨true, true, 0, fun _ => 0, fun _ => ""⟩).result
        = Except.ok (processVideoFrames (fun _ => 0) (fun _ => "") 0) := rfl
    rw [h]
    show Except.ok ((processVideoFrames (fun _ => 0) (fun _ => "") 0).length) = Except.ok 15
    rw [processVideoFrames_length]

/-- C7 amended: the code performs no duration validation. For a source
reporting duration 0 the run proceeds normally: the progress callback is
invoked (121 reports) and the run resolves with 15 keyframes whose
timestamps are all the degenerate duplicate value 0. -/
theorem C7_zero_duration_no_guard (sc : ℚ → ℚ) (cap : ℚ → String) :
    (processVideoRun ⟨true, true, 0, sc, cap⟩).progress.length = 121 ∧
      (processVideoRun ⟨true, true, 0, sc, cap⟩).result.map (List.map fun k => k.timestamp) =
        Except.ok (List.replicate 15 0) := by
  constructor
  · have h : (processVideoRun ⟨true, true, 0, sc, cap⟩).progress = progressEvents := rfl
    rw [h]
    decide
  · have h : (processVideoRun ⟨true, true, 0, sc, cap⟩).result
        = Except.ok (processVideoFrames sc cap 0) := rfl
    rw [h]
    show Except.ok ((processVideoFrames sc cap 0).map fun k => k.timestamp)
      = Except.ok (List.replicate 15 0)
    congr 1
    rw [List.eq_replicate_iff]
    refine ⟨by rw [List.length_map, processVideoFrames_length], ?_⟩
    intro b hb
    rw [List.mem_map] at hb
    obtain ⟨kf, hkf, rfl⟩ := hb
    exact processVideoFrames_zero_duration_timestamps sc cap kf hkf

/-! ### C8 -/

/-- C8 as stated is false: the output is not always exactly 4 characters
— there is no zero padding. The triple (empty name, size 0,
lastModified 0) hashes to 1536 and renders as the 3-character string
600. -/
theorem C8_counterexample :
    generateVideoId [] 0 0 = ['6', '0', '0'] ∧ (generateVideoId [] 0 0).length ≠ 4 :=
  ⟨by decide, by decide⟩

/-- C8 amended: the fingerprint is a pure function of the triple (purity
is definitional in this model), and its output consists of 1 to 4
uppercase hexadecimal characters: the hexadecimal rendering is truncated
to at most 4 characters but shorter renderings are not padded. -/
theorem C8_fingerprint_shape (name : List ℕ) (size lastModified : ℕ) :
    1 ≤ (generateVideoId name size lastModified).length ∧
      (generateVideoId name size lastModified).length ≤ 4 ∧
      ∀ c ∈ generateVideoId name size lastModified, c ∈ upperHexDigits := by
  refine ⟨?_, ?_, ?_⟩
  · rw [generateVideoId, List.length_map, List.length_take]
    have hne := toHexLower_ne_nil
      (strHash (name ++ decimalCodes size ++ decimalCodes lastModified)).natAbs
    have hl := List.length_pos.mpr hne
    exact le_min_iff.mpr ⟨by norm_num, hl⟩
  · rw [generateVideoId, List.length_map, List.length_take]
    exact min_le_left _ _
  · intro c hc
    rw [generateVideoId, List.mem_map] at hc
    obtain ⟨c0, hc0, rfl⟩ := hc
    have hc1 := List.Sublist.mem hc0 (List.take_sublist _ _)
    obtain ⟨d, hd, rfl⟩ := toHexLower_chars _ c0 hc1
    exact upper_hexDigitChar_mem d hd

/-! ### C9 -/

/-- C9 is a code bug: on the context-unavailable exit path the code
rejects without calling URL.revokeObjectURL, so the object URL is
leaked, while both the error path (onerror) and the success path do
revoke it. -/
theorem C9_context_unavailable_leaks_url :
    (processVideoRun ⟨true, false, 10, fun _ => 0, fun _ => ""⟩).urlRevoked = false ∧
      (processVideoRun ⟨true, false, 10, fun _ => 0, fun _ => ""⟩).result =
        Except.error "Canvas context unavailable" ∧
      (processVideoRun ⟨false, true, 10, fun _ => 0, fun _ => ""⟩).urlRevoked = true ∧
      (processVideoRun ⟨true, true, 10, fun _ => 0, fun _ => ""⟩).urlRevoked = true :=
  ⟨rfl, rfl, rfl, rfl⟩

/-! ### C10 -/

/-- C10 as stated is false: when the labeling service call fails, the
catch branch overwrites the label field with Frame index+1 instead of
leaving it at its caller-assigned value (aiDescription is kept). -/
theorem C10_counterexample :
    analyzeFrames (fun _ => AiOutcome.failure)
        [{ id := "a", dataUrl := "d", timestamp := 1, score := 2, label := some "Caller Label",
           aiDescription := some "orig", partId := 1, rankId := 1 }] =
      [{ id := "a", dataUrl := "d", timestamp := 1, score := 2, label := some "Frame 1",
         aiDescription := some "orig", partId := 1, rankId := 1 }] ∧
      some "Frame 1" ≠ some "Caller Label" :=
  ⟨by decide, by decide⟩

/-- C10 amended: when the service call fails, aiDescription keeps its
input value but label is overwritten with Frame index+1; every other
field of the keyframe is unchanged. (When the service is not invoked at
all the frames are trivially unchanged.) -/
theorem C10_failure_overwrites_label (i : ℕ) (frame : Keyframe) :
    (analyzeFrame AiOutcome.failure i frame).aiDescription = frame.aiDescription ∧
      (analyzeFrame AiOutcome.failure i frame).label = some ("Frame " ++ toString (i + 1)) ∧
      analyzeFrame AiOutcome.failure i frame =
        { frame with label := some ("Frame " ++ toString (i + 1)) } :=
  ⟨rfl, rfl, rfl⟩

/-! ### C2 -/

theorem scoreDescLe_trans : ∀ a b c : Sample, scoreDescLe a b → scoreDescLe b c → scoreDescLe a c := by
  intro a b c h1 h2
  simp only [scoreDescLe, decide_eq_true_eq] at h1 h2 ⊢
  exact le_trans h2 h1

theorem scoreDescLe_total : ∀ a b : Sample, scoreDescLe a b || scoreDescLe b a := by
  intro a b
  simp only [scoreDescLe, Bool.or_eq_true, decide_eq_true_eq]
  exact le_total b.score a.score

theorem mergeSort_pairwise_stable (l : List Sample)
    (htime : l.Pairwise fun a b => a.time < b.time) :
    (l.mergeSort scoreDescLe).Pairwise
      (fun a b => b.score ≤ a.score ∧ (a.score = b.score → a.time < b.time)) := by
  have hes : (l.enum.mergeSort (List.enumLE scoreDescLe)).map (fun x => x.2)
      = l.mergeSort scoreDescLe := List.mergeSort_enum
  rw [← hes, List.pairwise_map]
  have hsorted : (l.enum.mergeSort (List.enumLE scoreDescLe)).Pairwise
      (fun p q => List.enumLE scoreDescLe p q = true) :=
    List.sorted_mergeSort (List.enumLE_trans scoreDescLe_trans)
      (List.enumLE_total scoreDescLe_total) _
  have hnodup : (l.enum.mergeSort (List.enumLE scoreDescLe)).Pairwise (fun p q => p.1 ≠ q.1) := by
    have hperm : ((l.enum.mergeSort (List.enumLE scoreDescLe)).map Prod.fst).Perm
        (l.enum.map Prod.fst) := (List.mergeSort_perm _ _).map Prod.fst
    have hnd : ((l.enum.mergeSort (List.enumLE scoreDescLe)).map Prod.fst).Nodup := by
      rw [hperm.nodup_iff, List.enum_map_fst]
      exact List.nodup_range _
    rw [List.Nodup, List.pairwise_map] at hnd
    exact hnd
  have hmono : ∀ (i j : ℕ) (hi : i < l.length) (hj : j < l.length), i < j →
      (l[i]).time < (l[j]).time := List.pairwise_iff_getElem.mp htime
  refine (hsorted.and hnodup).imp_of_mem ?_
  intro p q hp hq hpq
  obtain ⟨hle, hne⟩ := hpq
  have h1 : scoreDescLe p.2 q.2 = true := by
    rw [List.enumLE] at hle
    by_cases hc : scoreDescLe p.2 q.2 = true
    · exact hc
    · rw [if_neg hc] at hle
      exact absurd hle (by simp)
  have hscore : q.2.score ≤ p.2.score := by
    simpa only [scoreDescLe, decide_eq_true_eq] using h1
  refine ⟨hscore, fun hs => ?_⟩
  have h2 : scoreDescLe q.2 p.2 = true := by
    simp only [scoreDescLe, decide_eq_true_eq]
    exact le_of_eq hs
  rw [List.enumLE, if_pos h1, if_pos h2] at hle
  have hij : p.1 < q.1 := lt_of_le_of_ne (by simpa using hle) hne
  obtain ⟨hpl, hpe⟩ := List.getElem?_eq_some.mp (List.mem_enum_iff_getElem?.mp (List.mem_mergeSort.mp hp))
  obtain ⟨hql, hqe⟩ := List.getElem?_eq_some.mp (List.mem_enum_iff_getElem?.mp (List.mem_mergeSort.mp hq))
  have := hmono p.1 q.1 hpl hql hij
  rw [hpe, hqe] at this
  exact this

theorem segmentScores_time_pairwise (sc : ℚ → ℚ) (duration : ℚ) (hd : 0 < duration) (s : ℕ) :
    (segmentScores sc duration s).Pairwise fun a b => a.time < b.time := by
  rw [segmentScores, List.pairwise_map]
  refine (List.pairwise_lt_range 24).imp ?_
  intro i j hij
  show sampleTime duration s i < sampleTime duration s j
  rw [sampleTime, sampleTime]
  have hstep : 0 < segmentDuration duration / 24 := by
    rw [segmentDuration]
    positivity
  have : (i : ℚ) < (j : ℚ) := by exact_mod_cast hij
  have := mul_lt_mul_of_pos_right this hstep
  linarith

theorem top3Times_pairwise (sc : ℚ → ℚ) (duration : ℚ) (hd : 0 < duration) (s : ℕ) :
    (top3Times (segmentScores sc duration s)).Pairwise
      (fun a b => b.score ≤ a.score ∧ (a.score = b.score → a.time < b.time)) := by
  rw [top3Times]
  exact List.Pairwise.sublist (List.take_sublist _ _)
    (mergeSort_pairwise_stable _ (segmentScores_time_pairwise sc duration hd s))

theorem segmentKeyframes_pairwise (sc : ℚ → ℚ) (cap : ℚ → String) (duration : ℚ)
    (hd : 0 < duration) (s : ℕ) :
    (segmentKeyframes sc cap duration s).Pairwise
      (fun a b => b.score ≤ a.score ∧ (a.score = b.score → a.timestamp < b.timestamp)) := by
  rw [segmentKeyframes, List.pairwise_map]
  have h2 : ((top3Times (segmentScores sc duration s)).enum.map Prod.snd).Pairwise
      (fun a b => b.score ≤ a.score ∧ (a.score = b.score → a.time < b.time)) := by
    rw [List.enum_map_snd]
    exact top3Times_pairwise sc duration hd s
  rw [List.pairwise_map] at h2
  exact h2

theorem sorted_head_max (l : List Sample) (a : Sample)
    (ha : (l.mergeSort scoreDescLe)[0]? = some a) (sm : Sample) (hsm : sm ∈ l) :
    sm.score ≤ a.score := by
  have hsort : (l.mergeSort scoreDescLe).Pairwise (fun x y => scoreDescLe x y = true) :=
    List.sorted_mergeSort scoreDescLe_trans scoreDescLe_total l
  have hsm2 : sm ∈ l.mergeSort scoreDescLe := List.mem_mergeSort.mpr hsm
  cases hout : l.mergeSort scoreDescLe with
  | nil =>
    rw [hout] at ha
    simp at ha
  | cons b tl =>
    rw [hout] at ha hsort hsm2
    have hab : a = b := by
      simp only [List.getElem?_cons_zero, Option.some.injEq] at ha
      exact ha.symm
    subst hab
    rcases List.mem_cons.mp hsm2 with rfl | h
    · exact le_refl _
    · have := List.rel_of_pairwise_cons hsort h
      simpa only [scoreDescLe, decide_eq_true_eq] using this

/-- C2: for every segment of every successful run (duration positive),
the selected keyframes are ordered by non-increasing score as rankId
increases, two selected samples with identical scores are ranked with
the earlier timestamp first (the selection is the stable descending
score sort of the 24 segment samples followed by taking the first 3),
and the rank 1 keyframe has the maximum score among all 24 of that
segment's samples. -/
theorem C2_rank_order (sc : ℚ → ℚ) (cap : ℚ → String) (duration : ℚ) (hd : 0 < duration)
    (s : ℕ) (hs : s < 5) :
    (segmentKeyframes sc cap duration s).Pairwise
        (fun a b => b.score ≤ a.score ∧ (a.score = b.score → a.timestamp < b.timestamp)) ∧
      ∀ kf ∈ segmentKeyframes sc cap duration s, kf.rankId = 1 →
        ∀ sm ∈ segmentScores sc duration s, sm.score ≤ kf.score := by
  refine ⟨segmentKeyframes_pairwise sc cap duration hd s, ?_⟩
  intro kf hkf hrank sm hsm
  rw [segmentKeyframes, List.mem_map] at hkf
  obtain ⟨p, hp, rfl⟩ := hkf
  have hp0 : p.1 = 0 := by simpa using hrank
  have hget : (top3Times (segmentScores sc duration s))[p.1]? = some p.2 :=
    List.mem_enum_iff_getElem?.mp hp
  rw [hp0, top3Times, List.getElem?_take, if_pos (by norm_num)] at hget
  exact sorted_head_max _ _ hget sm hsm

theorem C2_rank_order_witness :
    (0 : ℚ) < 240 ∧ 0 < 5 ∧
      ((segmentKeyframes (fun _ => 0) (fun _ => "") 240 0).Pairwise
          (fun a b => b.score ≤ a.score ∧ (a.score = b.score → a.timestamp < b.timestamp)) ∧
        ∀ kf ∈ segmentKeyframes (fun _ => 0) (fun _ => "") 240 0, kf.rankId = 1 →
          ∀ sm ∈ segmentScores (fun _ => 0) 240 0, sm.score ≤ kf.score) :=
  ⟨by decide, by decide, C2_rank_order (fun _ => 0) (fun _ => "") 240 (by decide) 0 (by decide)⟩

/-! ### C3 -/

theorem sum_range_mul (h w : ℕ) (f : ℕ → ℚ) :
    ∑ i ∈ Finset.range (h * w), f i
      = ∑ y ∈ Finset.range h, ∑ x ∈ Finset.range w, f (y * w + x) := by
  induction h with
  | zero => simp
  | succ h ih =>
    have key : ∑ i ∈ Finset.range (h * w + w), f i
        = (∑ i ∈ Finset.range (h * w), f i) + ∑ x ∈ Finset.range w, f (h * w + x) := by
      rw [Finset.range_eq_Ico,
        ← Finset.sum_Ico_consecutive f (Nat.zero_le (h * w)) (Nat.le_add_right (h * w) w)]
      congr 1
      rw [Finset.sum_Ico_eq_sum_range]
      have hsub : h * w + w - h * w = w := by omega
      rw [hsub, Finset.range_eq_Ico]
    rw [Nat.succ_mul, key, ih, Finset.sum_range_succ]

theorem lapVal_eq_specLaplacian (img : ImageDataM) (x y : ℕ) (hx : 1 ≤ x) (hy : 1 ≤ y) :
    lapVal img x y = specLaplacian img x y := by
  obtain ⟨a, rfl⟩ := Nat.exists_eq_add_of_le hx
  obtain ⟨b, rfl⟩ := Nat.exists_eq_add_of_le hy
  have e1 : (1 + b) * img.width + (1 + a) - 1 = (1 + b) * img.width + (1 + a - 1) := by omega
  have e2 : (1 + b) * img.width + (1 + a) + 1 = (1 + b) * img.width + (1 + a + 1) := by omega
  have e3 : (1 + b) * img.width + (1 + a) - img.width = (1 + b - 1) * img.width + (1 + a) := by
    have h1 : 1 + b - 1 = b := by omega
    have h2 : (1 + b) * img.width = img.width + b * img.width := by ring
    rw [h1, h2]
    omega
  have e4 : (1 + b) * img.width + (1 + a) + img.width = (1 + b + 1) * img.width + (1 + a) := by
    ring
  simp only [lapVal, specLaplacian, specLuminance, grayscale]
  rw [e1, e2, e3, e4]

theorem specInterior_card (img : ImageDataM) : (specInterior img).card = lapCount img := by
  rw [specInterior, lapCount, Finset.card_product]

theorem lapSum_eq_spec (img : ImageDataM) :
    lapSum img = ∑ p ∈ specInterior img, specLaplacian img p.2 p.1 := by
  rw [lapSum, specInterior, Finset.sum_product]
  apply Finset.sum_congr rfl
  intro y hy
  apply Finset.sum_congr rfl
  intro x hx
  exact lapVal_eq_specLaplacian img x y (Finset.mem_Ico.mp hx).1 (Finset.mem_Ico.mp hy).1

theorem laplacianArr_index (img : ImageDataM) (x y : ℕ) (hx : x < img.width)
    (hy : y < img.height) :
    laplacianArr img (y * img.width + x)
      = if 1 ≤ x ∧ x < img.width - 1 ∧ 1 ≤ y ∧ y < img.height - 1 then lapVal img x y
        else 0 := by
  have hw : 0 < img.width := lt_of_le_of_lt (Nat.zero_le x) hx
  have hmod : (y * img.width + x) % img.width = x := by
    rw [Nat.mul_comm y img.width, Nat.mul_add_mod, Nat.mod_eq_of_lt hx]
  have hdiv : (y * img.width + x) / img.width = y := by
    rw [Nat.mul_comm y img.width, Nat.mul_add_div hw, Nat.div_eq_of_lt hx, Nat.add_zero]
  simp only [laplacianArr]
  rw [hmod, hdiv]

theorem lapVarianceSum_eq_spec (img : ImageDataM) (m : ℚ) :
    (∑ i ∈ Finset.range (img.width * img.height),
        if laplacianArr img i ≠ 0 then (laplacianArr img i - m) ^ 2 else 0)
      = ∑ p ∈ specInterior img,
          if specLaplacian img p.2 p.1 ≠ 0 then (specLaplacian img p.2 p.1 - m) ^ 2 else 0 := by
  rw [Nat.mul_comm img.width img.height, sum_range_mul]
  have hstep : ∀ y ∈ Finset.range img.height, ∀ x ∈ Finset.range img.width,
      (if laplacianArr img (y * img.width + x) ≠ 0
        then (laplacianArr img (y * img.width + x) - m) ^ 2 else 0)
        = if 1 ≤ x ∧ x < img.width - 1 ∧ 1 ≤ y ∧ y < img.height - 1 then
            (if lapVal img x y ≠ 0 then (lapVal img x y - m) ^ 2 else 0)
          else 0 := by
    intro y hy x hx
    rw [laplacianArr_index img x y (Finset.mem_range.mp hx) (Finset.mem_range.mp hy)]
    by_cases hc : 1 ≤ x ∧ x < img.width - 1 ∧ 1 ≤ y ∧ y < img.height - 1
    · rw [if_pos hc, if_pos hc]
    · rw [if_neg hc, if_neg hc]
      simp
  rw [Finset.sum_congr rfl fun y hy => Finset.sum_congr rfl fun x hx => hstep y hy x hx]
  rw [← Finset.sum_product (Finset.range img.height) (Finset.range img.width)
    (fun p => if 1 ≤ p.2 ∧ p.2 < img.width - 1 ∧ 1 ≤ p.1 ∧ p.1 < img.height - 1 then
      (if lapVal img p.2 p.1 ≠ 0 then (lapVal img p.2 p.1 - m) ^ 2 else 0) else 0)]
  rw [← Finset.sum_subset
    (show specInterior img ⊆ Finset.range img.height ×ˢ Finset.range img.width from ?_) ?_]
  · apply Finset.sum_congr rfl
    intro p hp
    rw [specInterior, Finset.mem_product, Finset.mem_Ico, Finset.mem_Ico] at hp
    rw [if_pos ⟨hp.2.1, hp.2.2, hp.1.1, hp.1.2⟩,
      lapVal_eq_specLaplacian img p.2 p.1 hp.2.1 hp.1.1]
  · intro p hp
    rw [specInterior, Finset.mem_product, Finset.mem_Ico, Finset.mem_Ico] at hp
    rw [Finset.mem_product, Finset.mem_range, Finset.mem_range]
    constructor
    · omega
    · omega
  · intro p hp hnp
    rw [specInterior, Finset.mem_product, Finset.mem_Ico, Finset.mem_Ico] at hnp
    rw [if_neg]
    intro hc
    exact hnp ⟨⟨hc.2.2.1, hc.2.2.2⟩, hc.1, hc.2.1⟩

/-- C3: for every frame buffer with at least one interior pixel, the
sharpness score of the code equals the reference definition of spec
section 4.3: luminance conversion, 5-point Laplacian on interior pixels,
mean over the full interior count, and variance over only the nonzero
interior Laplacian values, again divided by the full interior count. -/
theorem C3_score_matches_spec (img : ImageDataM) (h : lapCount img ≠ 0) :
    calculateLaplacianVariance img = some (specSharpnessScore img) := by
  simp only [calculateLaplacianVariance, specSharpnessScore]
  rw [if_neg h]
  congr 1
  rw [lapVarianceSum_eq_spec, lapSum_eq_spec, specInterior_card]

theorem C3_score_matches_spec_witness :
    lapCount ⟨3, 3, fun _ => 100⟩ ≠ 0 ∧
      calculateLaplacianVariance ⟨3, 3, fun _ => 100⟩
        = some (specSharpnessScore ⟨3, 3, fun _ => 100⟩) :=
  ⟨by decide, C3_score_matches_spec ⟨3, 3, fun _ => 100⟩ (by decide)⟩
